import Mathlib

/-!
Verification of the schedCU coverage-grid validation tool
(`reimplement/cmd/validate-coverage/parse_coverage_grid.py`).

The Python program opens an ODS container (a zip with a `content.xml`
entry), walks every sheet/table of the spreadsheet, parses the grid of
study-type rows against shift-position columns, and aggregates a
study-type keyed coverage matrix that a gap analyzer then validates.

The shallow embedding below models:
  * a table cell as the list of its `text:p` paragraph texts,
  * a sheet as an optional name attribute plus a list of rows,
  * the container as either "not a zip" or a zip entry list whose
    `content.xml` entry is either malformed XML or a spreadsheet,
  * Python dicts (insertion-ordered, unique keys) as association lists
    over `String`, and Python `set` values as `Finset String`.
-/

/-- Python's `str.lower()`: ASCII case folding, character by character
(the program only compares ASCII text). -/
def lowerStr (s : String) : String :=
  ⟨s.data.map Char.toLower⟩

/-- Drop leading and trailing whitespace from a character list. -/
def trimChars (l : List Char) : List Char :=
  ((l.dropWhile Char.isWhitespace).reverse.dropWhile Char.isWhitespace).reverse

/-- Python's `str.strip()` with no argument: trim surrounding
whitespace. -/
def strTrim (s : String) : String :=
  ⟨trimChars s.data⟩

/-- Checks that the first list is an initial segment of the second
(character-level helper for Python's substring operator `in`). -/
def beginsWith : List Char → List Char → Bool
  | [], _ => true
  | _ :: _, [] => false
  | a :: as, b :: bs => a == b && beginsWith as bs

/-- Checks that `needle` occurs contiguously inside the second list
(character-level helper for Python's substring operator `in`). -/
def occursIn (needle : List Char) : List Char → Bool
  | [] => needle.isEmpty
  | c :: rest => beginsWith needle (c :: rest) || occursIn needle rest

/-- Python's `sub in s` on strings. -/
def strContains (s sub : String) : Bool :=
  occursIn sub.data s.data

/-- A table cell: the text contents of its `text:p` descendants, in
document order (only paragraphs with text are listed, matching the
`if elem.text` guard in `extract_text`). -/
abbrev Cell := List String

/-- A table row: its cells in column order. -/
abbrev TableRow := List Cell

/-- One `table:table` element: the optional `table:name` attribute and
the list of `table:table-row` elements. -/
structure SheetTable where
  name : Option String
  rows : List TableRow
deriving DecidableEq

/-- The `content.xml` entry of the container: either markup that fails
XML parsing, or a well-formed spreadsheet holding a list of tables. -/
inductive DocContent where
  | malformed (msg : String)
  | spreadsheet (tables : List SheetTable)
deriving DecidableEq

/-- The input file: either not a valid zip container at all, or a zip
with named entries. -/
inductive Container where
  | notZip (msg : String)
  | zip (entries : List (String × DocContent))
deriving DecidableEq

/-- `extract_text`: concatenate the paragraph texts joined by a single
space, then trim surrounding whitespace. -/
def extract_text (cell : Cell) : String :=
  strTrim (String.intercalate " " cell)

/-- The coverage-marker literals of line 115: `['x', 'yes', '1']`. -/
def coverageMarkers : List String := ["x", "yes", "1"]

/-- The membership test of lines 113–115: case-fold a textual value and
compare it against the marker list. -/
def isCoverageValue (s : String) : Bool :=
  decide (lowerStr s ∈ coverageMarkers)

/-- A cell parses as a true CoverageCell when its extracted text passes
the marker test. -/
def cellCovered (cell : Cell) : Bool :=
  isCoverageValue (extract_text cell)

/-- Line 75: `'weekend' in sheet_name.lower()`. -/
def isWeekendName (name : String) : Bool :=
  strContains (lowerStr name) "weekend"

/-- Lines 75–76 / 177–178: a sheet name maps to `'Weekend'` when it
contains `"weekend"` case-insensitively, else to `'Weekday'`. -/
def dayType (name : String) : String :=
  if isWeekendName name then "Weekend" else "Weekday"

/-- Generic lookup in an insertion-ordered association list, modelling
Python dict indexing (`m[k]` as an `Option`). -/
def lookupAssoc {β : Type} (m : List (String × β)) (k : String) : Option β :=
  match m with
  | [] => none
  | e :: rest => if e.1 = k then some e.2 else lookupAssoc rest k

/-- Generic get-or-create update of an insertion-ordered association
list: if `k` is present its value is mapped through `f`, otherwise
`(k, f d)` is appended at the end (Python dict insertion order). -/
def updateAssoc {β : Type} (m : List (String × β)) (k : String) (f : β → β) (d : β) :
    List (String × β) :=
  match m with
  | [] => [(k, f d)]
  | e :: rest => if e.1 = k then (e.1, f e.2) :: rest else e :: updateAssoc rest k f d

/-- The nested structure of line 67:
`coverage_data[sheet_name][study_type][shift_position] = has_coverage`. -/
abbrev CovMap := List (String × List (String × List (String × Bool)))

/-- Lines 122–127: ensure the sheet and study submaps exist, then store
`True` at the shift position. -/
def setCov (cd : CovMap) (sheet study pos : String) : CovMap :=
  updateAssoc cd sheet
    (fun sm => updateAssoc sm study
      (fun pm => updateAssoc pm pos (fun _ => true) true) [])
    []

/-- Line 117: `shift_positions[i] if i < len(shift_positions) else
f"Column{i}"`. -/
def resolveLabel (shift_positions : List String) (i : Nat) : String :=
  shift_positions.getD i ("Column" ++ toString i)

/-- Lines 97–127: parse one data row. An empty cell list or an empty
study-type label skips the row; every later cell whose value passes the
marker test stores coverage under the resolved shift-position label. -/
def parseRow (cd : CovMap) (sheet_name : String) (shift_positions : List String)
    (row : TableRow) : CovMap :=
  match row with
  | [] => cd
  | c0 :: rest =>
    let study_type := extract_text c0
    if study_type = "" then cd
    else
      (List.enumFrom 1 rest).foldl
        (fun cd ic =>
          if cellCovered ic.2 then
            setCov cd sheet_name study_type (resolveLabel shift_positions ic.1)
          else cd)
        cd

/-- Lines 70–129: parse one sheet. A sheet with no rows contributes
nothing; otherwise the first row supplies the shift-position labels and
the remaining rows are parsed as data rows. -/
def parseSheet (cd : CovMap) (t : SheetTable) : CovMap :=
  let sheet_name := t.name.getD "Unknown"
  match t.rows with
  | [] => cd
  | header :: dataRows =>
    let shift_positions := header.map extract_text
    dataRows.foldl (fun cd row => parseRow cd sheet_name shift_positions row) cd

/-- The whole grid walk of lines 68–131, starting from the empty map. -/
def parseTables (ts : List SheetTable) : CovMap :=
  ts.foldl parseSheet []

/-- Lines 42–47: open the zip and read its `content.xml` entry; any
failure (not a zip, or entry absent) is the caught exception whose
message is the human-readable cause. -/
def readContainer (c : Container) : Except String DocContent :=
  match c with
  | .notZip msg => .error msg
  | .zip entries =>
    match lookupAssoc entries "content.xml" with
    | none => .error "There is no item named content.xml in the archive"
    | some d => .ok d

/-- `parse_coverage_grid` (lines 34–131): `none` models the `return
None` taken when the container read or the XML parse fails; otherwise
the parsed nested coverage map is returned. -/
def parse_coverage_grid (c : Container) : Option CovMap :=
  match readContainer c with
  | .error _ => none
  | .ok (.malformed _) => none
  | .ok (.spreadsheet ts) => some (parseTables ts)

/-- `extract_study_category` (lines 134–161): ordered case-insensitive
substring rules mapping a study-type label to its category. -/
def extract_study_category (study_type : String) : String :=
  let s := lowerStr study_type
  if strContains s "ct" then
    if strContains s "neuro" then "CT Neuro"
    else if strContains s "body" then "CT Body"
    else "CT"
  else if strContains s "mr" || strContains s "mri" then
    if strContains s "neuro" then "MRI Neuro"
    else if strContains s "body" then "MRI Body"
    else "MRI"
  else if strContains s "us" || strContains s "ultrasound" then "Ultrasound"
  else if strContains s "dx" || strContains s "x-ray" || strContains s "xray" then "X-Ray"
  else if strContains s "nm" || strContains s "nuclear" then "Nuclear Medicine"
  else if strContains s "fluoro" then "Fluoroscopy"
  else if strContains s "pet" then "PET"
  else "Other"

/-- The `{'Weekday': set(), 'Weekend': set()}` value of lines 172–173. -/
@[ext]
structure DayCov where
  weekday : Finset String
  weekend : Finset String
deriving DecidableEq

/-- The defaultdict default: both sets empty. -/
def DayCov.empty : DayCov := ⟨∅, ∅⟩

/-- Line 182 / 186: `coverage[day_type].add(sheet_name)`. -/
def DayCov.add (dc : DayCov) (day sheet : String) : DayCov :=
  if day = "Weekday" then { dc with weekday := insert sheet dc.weekday }
  else { dc with weekend := insert sheet dc.weekend }

/-- One defaultdict accumulation step: get-or-create the entry for
`study` and add `sheet` to its `day` set. -/
def addCoverage (m : List (String × DayCov)) (study day sheet : String) :
    List (String × DayCov) :=
  updateAssoc m study (fun dc => dc.add day sheet) DayCov.empty

/-- The inner loop of lines 180–186 for one sheet, with the keying
function `f` distinguishing the study-type map (`f = id`) from the
category map (`f = extract_study_category`). -/
def processSheetBy (f : String → String) (m : List (String × DayCov))
    (sheet : String × List (String × List (String × Bool))) : List (String × DayCov) :=
  sheet.2.foldl (fun m st => addCoverage m (f st.1) (dayType sheet.1) sheet.1) m

/-- The aggregation fold of lines 175–186 over all sheets. -/
def aggregateBy (f : String → String) (cd : CovMap) : List (String × DayCov) :=
  cd.foldl (processSheetBy f) []

/-- `study_type_coverage` of line 173, fully aggregated. -/
def aggregate (cd : CovMap) : List (String × DayCov) :=
  aggregateBy (fun s => s) cd

/-- `category_coverage` of line 172, fully aggregated. -/
def aggregateCategories (cd : CovMap) : List (String × DayCov) :=
  aggregateBy extract_study_category cd

/-- Lines 241–245 for one entry: a Weekday gap when the Weekday set is
empty, then a Weekend gap when the Weekend set is empty. -/
def gapsOf (e : String × DayCov) : List (String × String) :=
  (if e.2.weekday = ∅ then [(e.1, "Weekday")] else []) ++
  (if e.2.weekend = ∅ then [(e.1, "Weekend")] else [])

/-- The gap list of lines 238–245, in study-type insertion order. -/
def gapList (m : List (String × DayCov)) : List (String × String) :=
  m.flatMap gapsOf

/-- Line 270: `len(gaps) == 0` decides VALIDATION PASSED. -/
def validationPassed (m : List (String × DayCov)) : Bool :=
  (gapList m).length == 0

/-- What `analyze_coverage` computes and reports: the gap list, the
summary statistics of lines 261–267, and the PASS flag of line 270. -/
structure AnalysisResult where
  gaps : List (String × String)
  totalStudyTypes : Nat
  totalCategories : Nat
  passed : Bool
deriving DecidableEq

/-- `analyze_coverage` (lines 164–277) as a pure result. -/
def analyze_coverage (cd : CovMap) : AnalysisResult :=
  { gaps := gapList (aggregate cd)
    totalStudyTypes := (aggregate cd).length
    totalCategories := (aggregateCategories cd).length
    passed := validationPassed (aggregate cd) }

/-- The observable outcome of `main` (lines 280–294): whether
`analyze_coverage` ran, whether the parse-failure message was printed,
and the process exit status. -/
structure MainOutcome where
  analyzed : Bool
  printedParseFailure : Bool
  exitCode : Nat
deriving DecidableEq

/-- `main` (lines 280–294): `if coverage_data:` is Python truthiness, so
both `None` and an empty dict take the failure branch (`sys.exit(1)`). -/
def mainRun (c : Container) : MainOutcome :=
  match parse_coverage_grid c with
  | none => ⟨false, true, 1⟩
  | some cd => if cd.isEmpty then ⟨false, true, 1⟩ else ⟨true, false, 0⟩

/-- All study-type labels recorded in a parsed coverage map, with
repetitions across sheets. -/
def studyKeys (cd : CovMap) : List String :=
  cd.flatMap (fun sh => sh.2.map Prod.fst)

/-- The condition under which the parser examines a row's coverage cells
and finds a marker: the row has cells, its study-type label is nonempty,
and some later cell passes the marker test. -/
def rowHasMarker (row : TableRow) : Bool :=
  match row with
  | [] => false
  | c0 :: rest => !(extract_text c0 == "") && rest.any cellCovered

/-- The condition under which a sheet stores at least one coverage
entry: it has a header row and some data row with a marker. -/
def sheetHasMarker (t : SheetTable) : Bool :=
  match t.rows with
  | [] => false
  | _ :: dataRows => dataRows.any rowHasMarker

/-- Modelled from the spec: the summary count "distinct sheets" that
§4.7 claims the analyzer reports (the code of `analyze_coverage` has no
such count). -/
def specSheetCount (cd : CovMap) : Nat :=
  ((cd.map Prod.fst).toFinset).card

/-- Modelled from the spec: the summary count "total coverage markers"
that §4.7 claims the analyzer reports (the code of `analyze_coverage`
has no such count; a per-sheet marker count is only printed while
parsing). -/
def specMarkerCount (cd : CovMap) : Nat :=
  (cd.map (fun sh => (sh.2.map (fun st => st.2.length)).sum)).sum

/-- Sample coverage map with three weekday sheets, one study type and
five stored markers. -/
def covSample : CovMap :=
  [("Mon AM", [("CT Head", [("P1", true), ("P2", true), ("P3", true)])]),
   ("Tue AM", [("CT Head", [("P1", true)])]),
   ("Wed AM", [("CT Head", [("P1", true)])])]

/-- Sample coverage map with a single weekday sheet. -/
def covC1 : CovMap :=
  [("Weekday AM", [("CT Head", [("P1", true)])])]

/-- The aggregated entry for `covC1`'s single study type. -/
def dcC1 : DayCov := ⟨{"Weekday AM"}, ∅⟩

/-- First sheet of the permutation sample. -/
def shC4a : String × List (String × List (String × Bool)) :=
  ("Weekday AM", [("CT Head", [("P1", true)])])

/-- Second sheet of the permutation sample. -/
def shC4b : String × List (String × List (String × Bool)) :=
  ("Weekend PM", [("CT Head", [("P2", true)])])

/-- Permutation sample, original order. -/
def cdC4a : CovMap := [shC4a, shC4b]

/-- Permutation sample, swapped order. -/
def cdC4b : CovMap := [shC4b, shC4a]

/-- Sample with one weekend and one weekday sheet for the same study. -/
def cdC8 : CovMap :=
  [("Weekend PM", [("MRI Spine", [("P1", true)])]),
   ("Weekday AM", [("MRI Spine", [("P1", true)])])]

/-- A sheet whose header row has 2 columns but whose data row has 3
cells (scenario 3 of the spec). -/
def tblC7 : SheetTable :=
  ⟨some "Sheet1", [[["Study"], ["NEURO1"]], [["CPMC CT Neuro"], ["x"], ["x"]]]⟩

/-- A valid container whose single sheet has no coverage marker, so
parsing succeeds with an empty map. -/
def contC9 : Container :=
  .zip [("content.xml", .spreadsheet [⟨some "S", [[["Study"], ["P"]], [["A"], ["no"]]]⟩])]

/-- A container that is not a zip file. -/
def contC9bad : Container := .notZip "File is not a zip file"

/-- Sample table storing exactly one coverage entry. -/
def tblC10 : SheetTable :=
  ⟨some "S1", [[["Study"], ["P1"]], [["CT Head"], ["x"]]]⟩

/-- The sheet submap `parseTables [tblC10]` stores under `"S1"`. -/
def smC10 : List (String × List (String × Bool)) := [("CT Head", [("P1", true)])]

/-- The position submap stored under `"CT Head"` in `smC10`. -/
def pmC10 : List (String × Bool) := [("P1", true)]

/-- The defaultdict read of `study_type_coverage[study]`: the stored
entry, or the empty pair of sets when the key is absent. -/
def lookupCov (m : List (String × DayCov)) (study : String) : DayCov :=
  (lookupAssoc m study).getD DayCov.empty

/-- Extensional description of aggregation: the sheets of `cd` that
record the key `study` (under the keying function `f`) and whose name
classifies as `day`. -/
def coveredSheetsBy (f : String → String) (cd : CovMap) (study day : String) :
    Finset String :=
  ((cd.filter (fun sh =>
      decide (study ∈ sh.2.map (fun st => f st.1)) &&
      decide (dayType sh.1 = day))).map Prod.fst).toFinset

/-- Invariant of the parsed nested map: every stored leaf is `true`. -/
def LeavesTrue (cd : CovMap) : Prop :=
  ∀ sh ∈ cd, ∀ st ∈ sh.2, ∀ pv ∈ st.2, pv.2 = true

/-- C2: a parsed CoverageCell is true exactly when the cell's extracted,
case-folded text is one of "x", "yes", "1"; the textual values "X "
(with its trailing space, i.e. before any trim), "no", "", and "2" all
fail the marker test. -/
theorem C2_cell_marker (cell : Cell) :
    (cellCovered cell = true ↔ lowerStr (extract_text cell) ∈ coverageMarkers) ∧
    isCoverageValue "X " = false ∧ isCoverageValue "no" = false ∧
    isCoverageValue "" = false ∧ isCoverageValue "2" = false := by
  refine ⟨?_, by decide, by decide, by decide, by decide⟩
  simp [cellCovered, isCoverageValue]

/-- C3: the grid-based parser classifies a sheet name as Weekend exactly
when it contains "weekend" in any letter case, as Weekday otherwise, and
assigns no other day type. -/
theorem C3_day_type (name : String) :
    (dayType name = "Weekend" ↔ isWeekendName name = true) ∧
    (dayType name = "Weekday" ↔ isWeekendName name = false) ∧
    (dayType name = "Weekday" ∨ dayType name = "Weekend") := by
  have hne : ("Weekend" : String) ≠ "Weekday" := by decide
  cases h : isWeekendName name <;> simp [dayType, h, hne, hne.symm]

/-- C5: a path that is not a valid zip makes the container read fail
with the caught error (the code's rendering of `ContainerError`) before
any sheet is parsed; the run yields no coverage map at all, analysis is
skipped, and the failure is reported with exit status 1. -/
theorem C5_bad_container (msg : String) :
    readContainer (Container.notZip msg) = Except.error msg ∧
    parse_coverage_grid (Container.notZip msg) = none ∧
    mainRun (Container.notZip msg) = ⟨false, true, 1⟩ := by
  refine ⟨rfl, rfl, rfl⟩

/-- C7: a cell at a column index with no header label resolves to the
synthetic label `"Column{i}"`, and the concrete 2-column-header,
3-cell-row sheet parses without error, its third cell resolving to
`"Column2"`. -/
theorem C7_column_fallback (sp : List String) (i : Nat) (h : sp.length ≤ i) :
    resolveLabel sp i = "Column" ++ toString i ∧
    parseTables [tblC7] =
      [("Sheet1", [("CPMC CT Neuro", [("NEURO1", true), ("Column2", true)])])] := by
  refine ⟨?_, rfl⟩
  unfold resolveLabel
  exact List.getD_eq_default _ _ h

/-- C7 witness: instantiated with the 2-label header at index 2. -/
theorem C7_column_fallback_witness :
    (["Study", "NEURO1"].length ≤ 2) ∧
    (resolveLabel ["Study", "NEURO1"] 2 = "Column" ++ toString 2 ∧
     parseTables [tblC7] =
      [("Sheet1", [("CPMC CT Neuro", [("NEURO1", true), ("Column2", true)])])]) :=
  ⟨by decide, C7_column_fallback ["Study", "NEURO1"] 2 (by decide)⟩

/-- C9: a document that parses to an empty coverage map is handled
exactly like a parse failure at the CLI boundary: analysis is skipped,
the parse-failure message is printed, and the process exits with 1. -/
theorem C9_empty_like_failure (c c' : Container)
    (h : parse_coverage_grid c = some []) (h' : parse_coverage_grid c' = none) :
    mainRun c = ⟨false, true, 1⟩ ∧ mainRun c = mainRun c' := by
  constructor
  · simp [mainRun, h]
  · simp [mainRun, h, h']

/-- C9 witness: a valid container whose only data cell is "no" parses to
the empty map and is reported like the not-a-zip container. -/
theorem C9_empty_like_failure_witness :
    parse_coverage_grid contC9 = some [] ∧ parse_coverage_grid contC9bad = none ∧
    (mainRun contC9 = ⟨false, true, 1⟩ ∧ mainRun contC9 = mainRun contC9bad) :=
  ⟨rfl, rfl, C9_empty_like_failure contC9 contC9bad rfl rfl⟩

/-- Looking up after a get-or-create update: the updated key reads back
`f` of its previous value (or of the default), other keys are
untouched. -/
theorem lookupAssoc_updateAssoc {β : Type} (m : List (String × β)) (k : String)
    (f : β → β) (d : β) (a : String) :
    lookupAssoc (updateAssoc m k f d) a =
      if k = a then some (f ((lookupAssoc m k).getD d)) else lookupAssoc m a := by
  induction m with
  | nil =>
    by_cases h : k = a <;> simp [updateAssoc, lookupAssoc, h]
  | cons e rest ih =>
    by_cases h1 : e.1 = k
    · subst h1
      by_cases h2 : e.1 = a
      · subst h2
        simp [updateAssoc, lookupAssoc]
      · simp [updateAssoc, lookupAssoc, h2]
    · by_cases h2 : e.1 = a
      · subst h2
        have h4 : ¬(k = e.1) := fun h => h1 h.symm
        simp [updateAssoc, lookupAssoc, h1, h4]
      · simp [updateAssoc, lookupAssoc, h1, h2, ih]

/-- The key list after a get-or-create update: unchanged when the key
was present, extended at the end otherwise. -/
theorem keys_updateAssoc {β : Type} (m : List (String × β)) (k : String)
    (f : β → β) (d : β) :
    (updateAssoc m k f d).map Prod.fst =
      if k ∈ m.map Prod.fst then m.map Prod.fst else m.map Prod.fst ++ [k] := by
  induction m with
  | nil => simp [updateAssoc]
  | cons e rest ih =>
    by_cases h1 : e.1 = k
    · simp [updateAssoc, h1]
    · have h2 : ¬(k = e.1) := fun h => h1 h.symm
      by_cases h3 : k ∈ rest.map Prod.fst <;>
        simp [updateAssoc, h1, h2, h3, ih]

/-- Membership in the key list after a get-or-create update. -/
theorem mem_keys_updateAssoc {β : Type} (m : List (String × β)) (k : String)
    (f : β → β) (d : β) (a : String) :
    a ∈ (updateAssoc m k f d).map Prod.fst ↔ a ∈ m.map Prod.fst ∨ a = k := by
  rw [keys_updateAssoc]
  by_cases h : k ∈ m.map Prod.fst
  · simp only [if_pos h]
    constructor
    · exact Or.inl
    · rintro (ha | rfl)
      · exact ha
      · exact h
  · simp [if_neg h]

/-- Get-or-create updates keep the key list duplicate-free. -/
theorem nodup_keys_updateAssoc {β : Type} (m : List (String × β)) (k : String)
    (f : β → β) (d : β) (h : (m.map Prod.fst).Nodup) :
    ((updateAssoc m k f d).map Prod.fst).Nodup := by
  rw [keys_updateAssoc]
  by_cases hk : k ∈ m.map Prod.fst
  · simpa [if_pos hk]
  · rw [if_neg hk]
    simp [List.nodup_append, h, hk]

/-- Every entry of a get-or-create update is an old entry, the freshly
created entry, or the rewritten entry of the updated key. -/
theorem mem_updateAssoc {β : Type} {m : List (String × β)} {k : String}
    {f : β → β} {d : β} {x : String × β} (h : x ∈ updateAssoc m k f d) :
    x ∈ m ∨ x = (k, f d) ∨ ∃ b, (k, b) ∈ m ∧ x = (k, f b) := by
  induction m with
  | nil =>
    simp [updateAssoc] at h
    exact Or.inr (Or.inl h)
  | cons e rest ih =>
    by_cases h1 : e.1 = k
    · simp only [updateAssoc, if_pos h1, List.mem_cons] at h
      rcases h with h | h
      · refine Or.inr (Or.inr ⟨e.2, ?_, ?_⟩)
        · rw [← h1]
          exact List.mem_cons_self _ _
        · rw [h, h1]
      · exact Or.inl (List.mem_cons_of_mem _ h)
    · simp only [updateAssoc, if_neg h1, List.mem_cons] at h
      rcases h with h | h
      · exact Or.inl (h ▸ List.mem_cons_self _ _)
      · rcases ih h with h2 | h2 | ⟨b, hb, h2⟩
        · exact Or.inl (List.mem_cons_of_mem _ h2)
        · exact Or.inr (Or.inl h2)
        · exact Or.inr (Or.inr ⟨b, List.mem_cons_of_mem _ hb, h2⟩)

/-- A successful association lookup returns a stored entry. -/
theorem lookupAssoc_mem {β : Type} {m : List (String × β)} {k : String} {v : β}
    (h : lookupAssoc m k = some v) : (k, v) ∈ m := by
  induction m with
  | nil => simp [lookupAssoc] at h
  | cons e rest ih =>
    by_cases h1 : e.1 = k
    · simp only [lookupAssoc, if_pos h1, Option.some.injEq] at h
      subst h
      rw [← h1]
      exact List.mem_cons_self _ _
    · simp only [lookupAssoc, if_neg h1] at h
      exact List.mem_cons_of_mem _ (ih h)

/-- Storing a coverage marker keeps every leaf of the nested map
`true`. -/
theorem leavesTrue_setCov (cd : CovMap) (sheet study pos : String)
    (h : LeavesTrue cd) : LeavesTrue (setCov cd sheet study pos) := by
  intro sh hsh st hst pv hpv
  rcases mem_updateAssoc hsh with hm | hm | ⟨sm, hsm, hm⟩
  · exact h sh hm st hst pv hpv
  · subst hm
    rcases mem_updateAssoc hst with hm' | hm' | ⟨pm, hpm, hm'⟩
    · simp at hm'
    · subst hm'
      rcases mem_updateAssoc hpv with hm'' | hm'' | ⟨b, hb, hm''⟩
      · simp at hm''
      · subst hm''; rfl
      · subst hm''; rfl
    · simp at hpm
  · subst hm
    rcases mem_updateAssoc hst with hm' | hm' | ⟨pm, hpm, hm'⟩
    · exact h (sheet, sm) hsm _ hm' pv hpv
    · subst hm'
      rcases mem_updateAssoc hpv with hm'' | hm'' | ⟨b, hb, hm''⟩
      · simp at hm''
      · subst hm''; rfl
      · subst hm''; rfl
    · subst hm'
      rcases mem_updateAssoc hpv with hm'' | hm'' | ⟨b, hb, hm''⟩
      · exact h (sheet, sm) hsm (study, pm) hpm pv hm''
      · subst hm''; rfl
      · subst hm''; rfl

/-- The cell loop of one data row keeps every leaf `true`. -/
theorem leavesTrue_rowFold (sn st : String) (sp : List String)
    (l : List (Nat × Cell)) (cd : CovMap) (h : LeavesTrue cd) :
    LeavesTrue (l.foldl
      (fun cd ic =>
        if cellCovered ic.2 then setCov cd sn st (resolveLabel sp ic.1) else cd)
      cd) := by
  induction l generalizing cd with
  | nil => exact h
  | cons ic rest ih =>
    simp only [List.foldl_cons]
    by_cases hc : cellCovered ic.2
    · exact ih _ (by simpa [hc] using leavesTrue_setCov cd sn st (resolveLabel sp ic.1) h)
    · simpa [hc] using ih _ h

/-- Parsing one data row keeps every leaf `true`. -/
theorem leavesTrue_parseRow (cd : CovMap) (sn : String) (sp : List String)
    (row : TableRow) (h : LeavesTrue cd) : LeavesTrue (parseRow cd sn sp row) := by
  cases row with
  | nil => exact h
  | cons c0 rest =>
    unfold parseRow
    by_cases he : extract_text c0 = ""
    · simpa [he] using h
    · simpa [he] using leavesTrue_rowFold sn (extract_text c0) sp _ cd h

/-- Parsing one sheet keeps every leaf `true`. -/
theorem leavesTrue_parseSheet (cd : CovMap) (t : SheetTable)
    (h : LeavesTrue cd) : LeavesTrue (parseSheet cd t) := by
  obtain ⟨nm, rows⟩ := t
  cases rows with
  | nil => exact h
  | cons header dataRows =>
    unfold parseSheet
    simp only []
    induction dataRows generalizing cd with
    | nil => exact h
    | cons row rest ih =>
      simp only [List.foldl_cons]
      exact ih _ (leavesTrue_parseRow cd _ _ row h)

/-- Every leaf of the fully parsed coverage map is `true`. -/
theorem leavesTrue_parseTables (ts : List SheetTable) :
    LeavesTrue (parseTables ts) := by
  unfold parseTables
  have main : ∀ (ts : List SheetTable) (cd : CovMap),
      LeavesTrue cd → LeavesTrue (ts.foldl parseSheet cd) := by
    intro ts
    induction ts with
    | nil => exact fun cd h => h
    | cons t rest ih =>
      intro cd h
      simp only [List.foldl_cons]
      exact ih _ (leavesTrue_parseSheet cd t h)
  exact main ts [] (by intro sh hsh; simp at hsh)

/-- `any` over an enumeration ignores the indices. -/
theorem enumFrom_any (p : Cell → Bool) (n : Nat) (l : List Cell) :
    (List.enumFrom n l).any (fun ic => p ic.2) = l.any p := by
  induction l generalizing n with
  | nil => rfl
  | cons c rest ih => simp [List.enumFrom, ih]

/-- Key membership after storing one coverage marker. -/
theorem keys_setCov (cd : CovMap) (sheet study pos a : String) :
    a ∈ (setCov cd sheet study pos).map Prod.fst ↔
      a ∈ cd.map Prod.fst ∨ a = sheet :=
  mem_keys_updateAssoc cd sheet _ [] a

/-- Key membership after the cell loop of one data row: the sheet name
appears newly exactly when some cell of the loop passes the marker
test. -/
theorem keys_rowFold (sn st : String) (sp : List String)
    (l : List (Nat × Cell)) (cd : CovMap) (a : String) :
    (a ∈ (l.foldl
        (fun cd ic =>
          if cellCovered ic.2 then setCov cd sn st (resolveLabel sp ic.1) else cd)
        cd).map Prod.fst) ↔
      a ∈ cd.map Prod.fst ∨ (a = sn ∧ l.any (fun ic => cellCovered ic.2) = true) := by
  induction l generalizing cd with
  | nil => simp
  | cons ic rest ih =>
    simp only [List.foldl_cons, List.any_cons]
    by_cases hc : cellCovered ic.2
    · rw [if_pos hc, ih, keys_setCov]
      simp [hc]
      tauto
    · rw [if_neg hc, ih]
      simp [hc]

/-- Key membership after parsing one data row. -/
theorem keys_parseRow (cd : CovMap) (sn : String) (sp : List String)
    (row : TableRow) (a : String) :
    a ∈ (parseRow cd sn sp row).map Prod.fst ↔
      a ∈ cd.map Prod.fst ∨ (a = sn ∧ rowHasMarker row = true) := by
  cases row with
  | nil => simp [parseRow, rowHasMarker]
  | cons c0 rest =>
    by_cases he : extract_text c0 = ""
    · simp [parseRow, rowHasMarker, he]
    · simp only [parseRow, rowHasMarker, if_neg he]
      rw [keys_rowFold, enumFrom_any cellCovered 1 rest]
      simp [he]

/-- Key membership after the data-row loop of one sheet. -/
theorem keys_rowsFold (sn : String) (sp : List String)
    (rows : List TableRow) (cd : CovMap) (a : String) :
    (a ∈ (rows.foldl (fun cd row => parseRow cd sn sp row) cd).map Prod.fst) ↔
      a ∈ cd.map Prod.fst ∨ (a = sn ∧ rows.any rowHasMarker = true) := by
  induction rows generalizing cd with
  | nil => simp
  | cons row rest ih =>
    simp only [List.foldl_cons, List.any_cons]
    rw [ih, keys_parseRow]
    by_cases hr : rowHasMarker row
    · simp only [hr, true_or, and_true]
      tauto
    · simp [hr]

/-- Key membership after parsing one sheet: the sheet's resolved name
appears newly exactly when the sheet stores a marker. -/
theorem keys_parseSheet (cd : CovMap) (t : SheetTable) (a : String) :
    a ∈ (parseSheet cd t).map Prod.fst ↔
      a ∈ cd.map Prod.fst ∨
        (a = t.name.getD "Unknown" ∧ sheetHasMarker t = true) := by
  obtain ⟨nm, rows⟩ := t
  cases rows with
  | nil => simp [parseSheet, sheetHasMarker]
  | cons header dataRows =>
    simp only [parseSheet, sheetHasMarker]
    exact keys_rowsFold _ _ dataRows cd a

/-- Key membership after the whole sheet walk. -/
theorem keys_tablesFold (ts : List SheetTable) (cd : CovMap) (a : String) :
    (a ∈ (ts.foldl parseSheet cd).map Prod.fst) ↔
      a ∈ cd.map Prod.fst ∨
        ∃ t ∈ ts, t.name.getD "Unknown" = a ∧ sheetHasMarker t = true := by
  induction ts generalizing cd with
  | nil => simp
  | cons t rest ih =>
    simp only [List.foldl_cons]
    rw [ih, keys_parseSheet]
    constructor
    · rintro ((h | ⟨rfl, hm⟩) | ⟨t', ht', hn, hm⟩)
      · exact Or.inl h
      · exact Or.inr ⟨t, List.mem_cons_self _ _, rfl, hm⟩
      · exact Or.inr ⟨t', List.mem_cons_of_mem _ ht', hn, hm⟩
    · rintro (h | ⟨t', ht', hn, hm⟩)
      · exact Or.inl (Or.inl h)
      · rcases List.mem_cons.1 ht' with rfl | ht'
        · exact Or.inl (Or.inr ⟨hn.symm, hm⟩)
        · exact Or.inr ⟨t', ht', hn, hm⟩

/-- C10: every leaf stored in the parsed nested map
`coverage_data[sheet][study][position]` is the boolean `true`, and a
sheet name is a key of the map exactly when one of that sheet's parsed
rows has a nonempty study label and a cell passing the marker test. -/
theorem C10_nested_map_invariant (ts : List SheetTable) :
    (∀ sheet sm study pm pos b,
        lookupAssoc (parseTables ts) sheet = some sm →
        lookupAssoc sm study = some pm →
        lookupAssoc pm pos = some b → b = true) ∧
    (∀ name, name ∈ (parseTables ts).map Prod.fst ↔
        ∃ t ∈ ts, t.name.getD "Unknown" = name ∧ sheetHasMarker t = true) := by
  constructor
  · intro sheet sm study pm pos b h1 h2 h3
    exact leavesTrue_parseTables ts _ (lookupAssoc_mem h1) _ (lookupAssoc_mem h2)
      _ (lookupAssoc_mem h3)
  · intro name
    have h := keys_tablesFold ts [] name
    simpa using h

/-- C10 witness: the sample sheet stores exactly one `true` leaf under
its name, and its name is a key because its data row has a marker. -/
theorem C10_nested_map_invariant_witness :
    (lookupAssoc (parseTables [tblC10]) "S1" = some smC10 ∧
     lookupAssoc smC10 "CT Head" = some pmC10 ∧
     lookupAssoc pmC10 "P1" = some true) ∧
    (true = true ∧
     ("S1" ∈ (parseTables [tblC10]).map Prod.fst ↔
        ∃ t ∈ [tblC10], t.name.getD "Unknown" = "S1" ∧ sheetHasMarker t = true)) :=
  ⟨⟨rfl, rfl, rfl⟩,
   (C10_nested_map_invariant [tblC10]).1 "S1" smC10 "CT Head" pmC10 "P1" true
      rfl rfl rfl,
   (C10_nested_map_invariant [tblC10]).2 "S1"⟩

/-- Adding the same sheet to the same day set twice is the same as
adding it once. -/
theorem DayCov.add_idem (dc : DayCov) (day sheet : String) :
    (dc.add day sheet).add day sheet = dc.add day sheet := by
  unfold DayCov.add
  split <;> simp

/-- Reading the coverage entry after one defaultdict accumulation
step. -/
theorem lookupCov_addCoverage (m : List (String × DayCov))
    (study day sheet a : String) :
    lookupCov (addCoverage m study day sheet) a =
      if study = a then (lookupCov m a).add day sheet else lookupCov m a := by
  unfold lookupCov addCoverage
  rw [lookupAssoc_updateAssoc]
  by_cases h : study = a
  · subst h
    simp
  · simp [h]

/-- Reading the coverage entry after the per-sheet study loop: the keys
listed in the sheet gain this sheet under its day type, all other keys
are untouched. -/
theorem lookupCov_studiesFold (f : String → String) (d sn : String)
    (l : List (String × List (String × Bool))) (m : List (String × DayCov))
    (a : String) :
    lookupCov (l.foldl (fun m st => addCoverage m (f st.1) d sn) m) a =
      if a ∈ l.map (fun st => f st.1) then (lookupCov m a).add d sn
      else lookupCov m a := by
  induction l generalizing m with
  | nil => simp
  | cons st rest ih =>
    simp only [List.foldl_cons, List.map_cons, List.mem_cons]
    rw [ih, lookupCov_addCoverage]
    by_cases h1 : f st.1 = a
    · by_cases h2 : a ∈ rest.map (fun st => f st.1) <;>
        simp [h1, h2, DayCov.add_idem]
    · have h1' : ¬(a = f st.1) := fun h => h1 h.symm
      by_cases h2 : a ∈ rest.map (fun st => f st.1) <;>
        simp [h1, h1', h2]

/-- Reading the coverage entry after processing one sheet. -/
theorem lookupCov_processSheetBy (f : String → String)
    (m : List (String × DayCov))
    (sheet : String × List (String × List (String × Bool))) (a : String) :
    lookupCov (processSheetBy f m sheet) a =
      if a ∈ sheet.2.map (fun st => f st.1) then
        (lookupCov m a).add (dayType sheet.1) sheet.1
      else lookupCov m a :=
  lookupCov_studiesFold f (dayType sheet.1) sheet.1 sheet.2 m a

/-- Unfolding the covered-sheet set over the first sheet of a list. -/
theorem coveredSheetsBy_cons (f : String → String)
    (sheet : String × List (String × List (String × Bool))) (rest : CovMap)
    (a day : String) :
    coveredSheetsBy f (sheet :: rest) a day =
      if a ∈ sheet.2.map (fun st => f st.1) ∧ dayType sheet.1 = day then
        insert sheet.1 (coveredSheetsBy f rest a day)
      else coveredSheetsBy f rest a day := by
  unfold coveredSheetsBy
  rw [List.filter_cons]
  by_cases h1 : a ∈ sheet.2.map (fun st => f st.1) <;>
    by_cases h2 : dayType sheet.1 = day <;>
    simp [h1, h2]

/-- The aggregation fold, characterized extensionally: each key's day
sets are the initial sets united with the matching covered sheets. -/
theorem lookupCov_aggFold (f : String → String) (cd : CovMap)
    (m : List (String × DayCov)) (a : String) :
    lookupCov (cd.foldl (processSheetBy f) m) a =
      ⟨(lookupCov m a).weekday ∪ coveredSheetsBy f cd a "Weekday",
       (lookupCov m a).weekend ∪ coveredSheetsBy f cd a "Weekend"⟩ := by
  induction cd generalizing m with
  | nil =>
    apply DayCov.ext <;> simp [coveredSheetsBy]
  | cons sheet rest ih =>
    simp only [List.foldl_cons]
    rw [ih, lookupCov_processSheetBy, coveredSheetsBy_cons, coveredSheetsBy_cons]
    have hd : ("Weekday" : String) ≠ "Weekend" := by decide
    by_cases hmem : a ∈ sheet.2.map (fun st => f st.1)
    · have hdt : dayType sheet.1 = "Weekday" ∨ dayType sheet.1 = "Weekend" := by
        unfold dayType
        split
        · exact Or.inr rfl
        · exact Or.inl rfl
      rcases hdt with hdt | hdt
      · have c1 : a ∈ sheet.2.map (fun st => f st.1) ∧ dayType sheet.1 = "Weekday" :=
          ⟨hmem, hdt⟩
        have c2 : ¬(a ∈ sheet.2.map (fun st => f st.1) ∧ dayType sheet.1 = "Weekend") :=
          fun h => hd (hdt.symm.trans h.2)
        rw [if_pos hmem, if_pos c1, if_neg c2, hdt]
        apply DayCov.ext <;>
          simp [DayCov.add, Finset.insert_union, Finset.union_insert]
      · have c1 : ¬(a ∈ sheet.2.map (fun st => f st.1) ∧ dayType sheet.1 = "Weekday") :=
          fun h => hd (h.2.symm.trans hdt)
        have c2 : a ∈ sheet.2.map (fun st => f st.1) ∧ dayType sheet.1 = "Weekend" :=
          ⟨hmem, hdt⟩
        rw [if_pos hmem, if_neg c1, if_pos c2, hdt]
        apply DayCov.ext <;>
          simp [DayCov.add, hd.symm, Finset.insert_union, Finset.union_insert]
    · have c1 : ¬(a ∈ sheet.2.map (fun st => f st.1) ∧ dayType sheet.1 = "Weekday") :=
        fun h => hmem h.1
      have c2 : ¬(a ∈ sheet.2.map (fun st => f st.1) ∧ dayType sheet.1 = "Weekend") :=
        fun h => hmem h.1
      rw [if_neg hmem, if_neg c1, if_neg c2]

/-- The fully aggregated entry of a key is exactly its pair of
covered-sheet sets. -/
theorem lookupCov_aggregateBy (f : String → String) (cd : CovMap) (a : String) :
    lookupCov (aggregateBy f cd) a =
      ⟨coveredSheetsBy f cd a "Weekday", coveredSheetsBy f cd a "Weekend"⟩ := by
  unfold aggregateBy
  rw [lookupCov_aggFold]
  apply DayCov.ext <;> simp [lookupCov, lookupAssoc, DayCov.empty]

/-- Key membership after one defaultdict accumulation step. -/
theorem mem_keys_addCoverage (m : List (String × DayCov))
    (study day sheet a : String) :
    a ∈ (addCoverage m study day sheet).map Prod.fst ↔
      a ∈ m.map Prod.fst ∨ a = study :=
  mem_keys_updateAssoc m study _ DayCov.empty a

/-- Key membership after the per-sheet study loop. -/
theorem keys_studiesFold (f : String → String) (d sn : String)
    (l : List (String × List (String × Bool))) (m : List (String × DayCov))
    (a : String) :
    (a ∈ (l.foldl (fun m st => addCoverage m (f st.1) d sn) m).map Prod.fst) ↔
      a ∈ m.map Prod.fst ∨ a ∈ l.map (fun st => f st.1) := by
  induction l generalizing m with
  | nil => simp
  | cons st rest ih =>
    simp only [List.foldl_cons, List.map_cons, List.mem_cons]
    rw [ih, mem_keys_addCoverage]
    tauto

/-- The per-sheet study loop keeps the key list duplicate-free. -/
theorem nodup_keys_studiesFold (f : String → String) (d sn : String)
    (l : List (String × List (String × Bool))) (m : List (String × DayCov))
    (h : (m.map Prod.fst).Nodup) :
    ((l.foldl (fun m st => addCoverage m (f st.1) d sn) m).map Prod.fst).Nodup := by
  induction l generalizing m with
  | nil => exact h
  | cons st rest ih =>
    simp only [List.foldl_cons]
    exact ih _ (nodup_keys_updateAssoc m (f st.1) _ DayCov.empty h)

/-- Key membership after the whole aggregation fold. -/
theorem mem_keys_aggFold (f : String → String) (cd : CovMap)
    (m : List (String × DayCov)) (a : String) :
    (a ∈ (cd.foldl (processSheetBy f) m).map Prod.fst) ↔
      a ∈ m.map Prod.fst ∨ ∃ sh ∈ cd, a ∈ sh.2.map (fun st => f st.1) := by
  induction cd generalizing m with
  | nil => simp
  | cons sheet rest ih =>
    simp only [List.foldl_cons]
    rw [ih]
    have hp : (a ∈ (processSheetBy f m sheet).map Prod.fst) ↔
        a ∈ m.map Prod.fst ∨ a ∈ sheet.2.map (fun st => f st.1) :=
      keys_studiesFold f (dayType sheet.1) sheet.1 sheet.2 m a
    rw [hp]
    constructor
    · rintro ((h | h) | ⟨sh, hsh, h⟩)
      · exact Or.inl h
      · exact Or.inr ⟨sheet, List.mem_cons_self _ _, h⟩
      · exact Or.inr ⟨sh, List.mem_cons_of_mem _ hsh, h⟩
    · rintro (h | ⟨sh, hsh, h⟩)
      · exact Or.inl (Or.inl h)
      · rcases List.mem_cons.1 hsh with rfl | hsh
        · exact Or.inl (Or.inr h)
        · exact Or.inr ⟨sh, hsh, h⟩

/-- The whole aggregation fold keeps the key list duplicate-free. -/
theorem nodup_keys_aggFold (f : String → String) (cd : CovMap)
    (m : List (String × DayCov)) (h : (m.map Prod.fst).Nodup) :
    ((cd.foldl (processSheetBy f) m).map Prod.fst).Nodup := by
  induction cd generalizing m with
  | nil => exact h
  | cons sheet rest ih =>
    simp only [List.foldl_cons]
    exact ih _ (nodup_keys_studiesFold f (dayType sheet.1) sheet.1 sheet.2 m h)

/-- The aggregated map has duplicate-free keys. -/
theorem nodup_keys_aggregateBy (f : String → String) (cd : CovMap) :
    ((aggregateBy f cd).map Prod.fst).Nodup :=
  nodup_keys_aggFold f cd [] (by simp)

/-- A key appears in the aggregated map exactly when some sheet lists
it. -/
theorem mem_keys_aggregateBy (f : String → String) (cd : CovMap) (a : String) :
    a ∈ (aggregateBy f cd).map Prod.fst ↔
      ∃ sh ∈ cd, a ∈ sh.2.map (fun st => f st.1) := by
  unfold aggregateBy
  rw [mem_keys_aggFold]
  simp

/-- A reported gap's subject is a key of the analyzed map. -/
theorem gapList_key_mem (m : List (String × DayCov)) (p : String × String)
    (h : p ∈ gapList m) : p.1 ∈ m.map Prod.fst := by
  unfold gapList at h
  rw [List.mem_flatMap] at h
  obtain ⟨e, hem, hp⟩ := h
  unfold gapsOf at hp
  rw [List.mem_append] at hp
  have hfst : p.1 = e.1 := by
    rcases hp with hp | hp <;> split at hp <;> simp at hp <;> simp [hp]
  rw [hfst]
  exact List.mem_map_of_mem Prod.fst hem

/-- With duplicate-free keys, a key's gap entries are determined by its
stored pair of day sets. -/
theorem gap_mem_iff (m : List (String × DayCov))
    (hnd : (m.map Prod.fst).Nodup) (study : String) (dc : DayCov)
    (h : lookupAssoc m study = some dc) :
    (((study, "Weekday") ∈ gapList m) ↔ dc.weekday = ∅) ∧
    (((study, "Weekend") ∈ gapList m) ↔ dc.weekend = ∅) := by
  induction m with
  | nil => simp [lookupAssoc] at h
  | cons e rest ih =>
    have hgl : gapList (e :: rest) = gapsOf e ++ gapList rest := by
      simp [gapList]
    rw [List.map_cons, List.nodup_cons] at hnd
    by_cases h1 : e.1 = study
    · have hdc : e.2 = dc := by
        simpa [lookupAssoc, h1] using h
      have hnot : ∀ d : String, ((study, d) ∈ gapList rest) → False := by
        intro d hmem
        exact hnd.1 (h1 ▸ gapList_key_mem rest (study, d) hmem)
      have hday : ("Weekday" : String) ≠ "Weekend" := by decide
      constructor
      · rw [hgl, List.mem_append]
        constructor
        · rintro (hp | hp)
          · unfold gapsOf at hp
            rw [List.mem_append] at hp
            rcases hp with hp | hp <;> split at hp <;>
              simp_all [Prod.ext_iff]
          · exact absurd hp (hnot "Weekday")
        · intro hw
          refine Or.inl ?_
          unfold gapsOf
          rw [List.mem_append]
          exact Or.inl (by simp [hdc ▸ hw, h1])
      · rw [hgl, List.mem_append]
        constructor
        · rintro (hp | hp)
          · unfold gapsOf at hp
            rw [List.mem_append] at hp
            rcases hp with hp | hp <;> split at hp <;>
              simp_all [Prod.ext_iff]
          · exact absurd hp (hnot "Weekend")
        · intro hw
          refine Or.inl ?_
          unfold gapsOf
          rw [List.mem_append]
          exact Or.inr (by simp [hdc ▸ hw, h1])
    · have h' : lookupAssoc rest study = some dc := by
        simpa [lookupAssoc, h1] using h
      have hrec := ih hnd.2 h'
      have hout : ∀ d : String, ((study, d) ∈ gapsOf e) → False := by
        intro d hp
        unfold gapsOf at hp
        rw [List.mem_append] at hp
        rcases hp with hp | hp <;> split at hp <;> simp_all [Prod.ext_iff]
      rw [hgl]
      constructor
      · rw [List.mem_append]
        constructor
        · rintro (hp | hp)
          · exact absurd hp (hout "Weekday")
          · exact hrec.1.1 hp
        · intro hw
          exact Or.inr (hrec.1.2 hw)
      · rw [List.mem_append]
        constructor
        · rintro (hp | hp)
          · exact absurd hp (hout "Weekend")
          · exact hrec.2.1 hp
        · intro hw
          exact Or.inr (hrec.2.2 hw)

/-- The number of aggregated entries is the number of distinct keys the
sheets list. -/
theorem length_aggregateBy (f : String → String) (cd : CovMap) :
    (aggregateBy f cd).length = ((studyKeys cd).map f).toFinset.card := by
  have hnd := nodup_keys_aggregateBy f cd
  have h1 : (aggregateBy f cd).length = ((aggregateBy f cd).map Prod.fst).length :=
    (List.length_map _ _).symm
  rw [h1, ← List.toFinset_card_of_nodup hnd]
  congr 1
  apply Finset.ext
  intro a
  rw [List.mem_toFinset, List.mem_toFinset, mem_keys_aggregateBy]
  simp only [studyKeys, List.mem_map, List.mem_flatMap]
  constructor
  · rintro ⟨sh, hsh, st, hst, rfl⟩
    exact ⟨st.1, ⟨sh, hsh, st, hst, rfl⟩, rfl⟩
  · rintro ⟨k, ⟨sh, hsh, st, hst, rfl⟩, rfl⟩
    exact ⟨sh, hsh, st, hst, rfl⟩

/-- C1: for every coverage map produced by aggregation, a Weekday gap is
emitted for a study type exactly when its Weekday sheet set is empty, a
Weekend gap exactly when its Weekend sheet set is empty, and validation
passes exactly when the gap list is empty. -/
theorem C1_gap_characterization (cd : CovMap) (study : String) (dc : DayCov)
    (h : lookupAssoc (aggregate cd) study = some dc) :
    (((study, "Weekday") ∈ gapList (aggregate cd)) ↔ dc.weekday = ∅) ∧
    (((study, "Weekend") ∈ gapList (aggregate cd)) ↔ dc.weekend = ∅) ∧
    (validationPassed (aggregate cd) = true ↔ gapList (aggregate cd) = []) := by
  have hnd : ((aggregate cd).map Prod.fst).Nodup :=
    nodup_keys_aggregateBy (fun s => s) cd
  have hg := gap_mem_iff (aggregate cd) hnd study dc h
  refine ⟨hg.1, hg.2, ?_⟩
  simp [validationPassed, List.length_eq_zero]

/-- C1 witness: a single weekday sheet covering one study type yields a
Weekend gap and no Weekday gap, and validation fails. -/
theorem C1_gap_characterization_witness :
    lookupAssoc (aggregate covC1) "CT Head" = some dcC1 ∧
    ((((("CT Head", "Weekday")) ∈ gapList (aggregate covC1)) ↔ dcC1.weekday = ∅) ∧
     (((("CT Head", "Weekend")) ∈ gapList (aggregate covC1)) ↔ dcC1.weekend = ∅) ∧
     (validationPassed (aggregate covC1) = true ↔ gapList (aggregate covC1) = [])) :=
  ⟨by decide, C1_gap_characterization covC1 "CT Head" dcC1 (by decide)⟩

/-- C4: permuting the sheets before aggregation leaves every study
type's pair of day sets, and the aggregated key set, unchanged. -/
theorem C4_order_independence (cd cd' : CovMap) (h : cd.Perm cd')
    (study : String) :
    lookupCov (aggregate cd) study = lookupCov (aggregate cd') study ∧
    (study ∈ (aggregate cd).map Prod.fst ↔
      study ∈ (aggregate cd').map Prod.fst) := by
  constructor
  · have hset : ∀ day, coveredSheetsBy (fun s => s) cd study day =
        coveredSheetsBy (fun s => s) cd' study day := by
      intro day
      unfold coveredSheetsBy
      exact List.toFinset_eq_of_perm _ _ ((h.filter _).map _)
    have h1 := lookupCov_aggregateBy (fun s => s) cd study
    have h2 := lookupCov_aggregateBy (fun s => s) cd' study
    show lookupCov (aggregateBy (fun s => s) cd) study =
      lookupCov (aggregateBy (fun s => s) cd') study
    rw [h1, h2, hset "Weekday", hset "Weekend"]
  · show study ∈ (aggregateBy (fun s => s) cd).map Prod.fst ↔
      study ∈ (aggregateBy (fun s => s) cd').map Prod.fst
    rw [mem_keys_aggregateBy, mem_keys_aggregateBy]
    constructor
    · rintro ⟨sh, hsh, hmem⟩
      exact ⟨sh, h.mem_iff.1 hsh, hmem⟩
    · rintro ⟨sh, hsh, hmem⟩
      exact ⟨sh, h.mem_iff.2 hsh, hmem⟩

/-- C4 witness: swapping a weekday and a weekend sheet leaves the
aggregated entry of their shared study type unchanged. -/
theorem C4_order_independence_witness :
    cdC4a.Perm cdC4b ∧
    (lookupCov (aggregate cdC4a) "CT Head" = lookupCov (aggregate cdC4b) "CT Head" ∧
     ("CT Head" ∈ (aggregate cdC4a).map Prod.fst ↔
        "CT Head" ∈ (aggregate cdC4b).map Prod.fst)) :=
  ⟨List.Perm.swap shC4b shC4a [],
   C4_order_independence cdC4a cdC4b (List.Perm.swap shC4b shC4a []) "CT Head"⟩

/-- C8: in the aggregated matrix, a study type's Weekday set only holds
names of sheets classifying as Weekday, and its Weekend set only names
classifying as Weekend, for any sequence of parsed sheets. -/
theorem C8_day_sets_sound (cd : CovMap) (study s : String) :
    (s ∈ (lookupCov (aggregate cd) study).weekday → dayType s = "Weekday") ∧
    (s ∈ (lookupCov (aggregate cd) study).weekend → dayType s = "Weekend") := by
  have hagg : lookupCov (aggregate cd) study =
      ⟨coveredSheetsBy (fun x => x) cd study "Weekday",
       coveredSheetsBy (fun x => x) cd study "Weekend"⟩ :=
    lookupCov_aggregateBy (fun x => x) cd study
  rw [hagg]
  constructor <;>
  · intro hs
    simp only [coveredSheetsBy, List.mem_toFinset, List.mem_map] at hs
    obtain ⟨sh, hsh, rfl⟩ := hs
    rw [List.mem_filter] at hsh
    have hcond := hsh.2
    rw [Bool.and_eq_true, decide_eq_true_eq, decide_eq_true_eq] at hcond
    exact hcond.2

/-- C8 witness: with one weekend and one weekday sheet aggregated, the
weekday sheet sits in the Weekday set and indeed classifies as
Weekday. -/
theorem C8_day_sets_sound_witness :
    ("Weekday AM" ∈ (lookupCov (aggregate cdC8) "MRI Spine").weekday) ∧
    dayType "Weekday AM" = "Weekday" :=
  ⟨by decide, (C8_day_sets_sound cdC8 "MRI Spine" "Weekday AM").1 (by decide)⟩

/-- C6 counterexample: on a map with three distinct sheets and five
stored markers, every summary count the analyzer actually returns equals
1 (study types, categories, gaps), so the analyzer reports neither the
distinct-sheet count 3 nor the marker total 5 claimed for it. -/
theorem C6_counts_counterexample :
    specSheetCount covSample = 3 ∧ specMarkerCount covSample = 5 ∧
    (analyze_coverage covSample).totalStudyTypes = 1 ∧
    (analyze_coverage covSample).totalCategories = 1 ∧
    (analyze_coverage covSample).gaps.length = 1 ∧
    (analyze_coverage covSample).passed = false := by
  refine ⟨by decide, by decide, by decide, by decide, by decide, by decide⟩

/-- C6 (amended): the analyzer is total and returns the ordered gap list
together with the counts of distinct study types and distinct
categories, and it reports PASS exactly when the gap list is empty. -/
theorem C6_analyzer_output (cd : CovMap) :
    (analyze_coverage cd).gaps = gapList (aggregate cd) ∧
    (analyze_coverage cd).totalStudyTypes = (studyKeys cd).toFinset.card ∧
    (analyze_coverage cd).totalCategories =
      ((studyKeys cd).map extract_study_category).toFinset.card ∧
    ((analyze_coverage cd).passed = true ↔ (analyze_coverage cd).gaps = []) := by
  refine ⟨rfl, ?_, ?_, ?_⟩
  · have h := length_aggregateBy (fun s => s) cd
    simpa using h
  · exact length_aggregateBy extract_study_category cd
  · simp [analyze_coverage, validationPassed, List.length_eq_zero]
